import Mathlib

/-!
Verification of the per-symbol statistics engine and its surrounding glue
(`aboss_task`).  The Rust source is shallowly embedded: `f64` values are
modelled as exact rationals (`ℚ`), `u64`/`usize` machine integers as natural
numbers (with the 64-bit width made explicit where the bit-level tricks of
the source depend on it), and fallible operations return `Option`.
-/

/-! ## `utils.rs` -/

/-- Width of `usize`/`isize` on the 64-bit targets the service runs on. -/
def USIZE_WIDTH : ℕ := 64

/-- `utils.rs::isize2usize`: reinterpret an `isize` as a `usize` by bit-cast
(two's complement), i.e. reduction modulo `2 ^ 64`. -/
def isize2usize (val : ℤ) : ℕ :=
  (val % (2 ^ USIZE_WIDTH : ℤ)).toNat

/-- `utils.rs::bound_index`: branchless bounding of an index.  The source
builds an all-ones or all-zeros mask from the sign bit of
`-((idx < bound_by) as isize)` and ANDs it onto `idx`. -/
def bound_index (idx bound_by : ℕ) : ℕ :=
  idx &&& isize2usize (-(if idx < bound_by then (1 : ℤ) else 0))

/-- `utils.rs::calculate_stream_mean`: online mean update
`curr_avg + (new_elem - curr_avg) / n`. -/
def calculate_stream_mean (curr_avg new_elem : ℚ) (n : ℕ) : ℚ :=
  curr_avg + (new_elem - curr_avg) / (n : ℚ)

/-! ## `data_processor.rs` -/

/-- `data_processor.rs::RawData`: the five-field snapshot record. -/
@[ext]
structure RawData where
  min : ℚ
  max : ℚ
  curr_avg : ℚ
  sma : ℚ
  data_point : ℕ
deriving Repr, DecidableEq

/-- `data_processor.rs::UnsafeQueue<f64>`: a fixed-capacity buffer.  The raw
allocation is modelled as a list whose length equals the capacity; freshly
allocated (uninitialized) cells are represented by `0`, and `split`
overwrites every cell before any read. -/
structure UnsafeQueue where
  data : List ℚ
  capacity : ℕ
deriving Repr, DecidableEq

/-- `UnsafeQueue::new`: allocate `capacity` (uninitialized) cells. -/
def UnsafeQueue.new (capacity : ℕ) : UnsafeQueue :=
  { data := List.replicate capacity 0, capacity := capacity }

/-- `UnsafeQueue::set`: write `val` at `idx` (no bounds check in release). -/
def UnsafeQueue.set (q : UnsafeQueue) (val : ℚ) (idx : ℕ) : UnsafeQueue :=
  { q with data := q.data.set idx val }

/-- `UnsafeQueue::get`: read the value at `idx` (no bounds check in release). -/
def UnsafeQueue.get (q : UnsafeQueue) (idx : ℕ) : ℚ :=
  q.data.getD idx 0

/-- `UnsafeQueue::swap`: read the old value at `idx`, then overwrite it. -/
def UnsafeQueue.swap (q : UnsafeQueue) (idx : ℕ) (val : ℚ) : ℚ × UnsafeQueue :=
  (q.get idx, q.set val idx)

/-- `data_processor.rs::DataProcessor`: the engine state.  The two-element
array `raw_data: [Cell<RawData>; 2]` is modelled by the two fields
`raw_data0`, `raw_data1`; the atomic `active2read` by a plain natural number
(the sequential single-writer semantics of the claims). -/
structure DataProcessor where
  raw_data0 : RawData
  raw_data1 : RawData
  active2read : ℕ
  queue : UnsafeQueue
  curr_sma_avg : ℚ
  curr_queue_idx : ℕ
deriving Repr, DecidableEq

/-- Read of `raw_data[i]` for the slot indices `0` and `1` used by the
engine (the source would panic on any other index; such an index is proved
unreachable below). -/
def DataProcessor.slotGet (s : DataProcessor) (i : ℕ) : RawData :=
  if i = 0 then s.raw_data0 else s.raw_data1

/-- Write of `raw_data[i].set(r)` for the slot indices `0` and `1`. -/
def DataProcessor.slotSet (s : DataProcessor) (i : ℕ) (r : RawData) : DataProcessor :=
  if i = 0 then { s with raw_data0 := r } else { s with raw_data1 := r }

/-- The `for idx in 0..n { queue.set(initial_data, idx) }` loop of
`DataProcessor::split`, modelled by recursion on the loop bound: after
`initLoop q v m` the cells `0, …, m-1` have been written in ascending
order. -/
def initLoop (q : UnsafeQueue) (v : ℚ) : ℕ → UnsafeQueue
  | 0 => q
  | m + 1 => (initLoop q v m).set v m

/-- The state constructed by `DataProcessor::split` after its
`assert!(sma_n_size > 0)` has passed. -/
def DataProcessor.splitState (sma_n_size : ℕ) (initial_data : ℚ) : DataProcessor :=
  { raw_data0 :=
      { min := initial_data, max := initial_data, curr_avg := initial_data,
        sma := initial_data, data_point := 1 }
    raw_data1 :=
      { min := initial_data, max := initial_data, curr_avg := initial_data,
        sma := initial_data, data_point := 1 }
    active2read := 0
    queue := initLoop (UnsafeQueue.new sma_n_size) initial_data sma_n_size
    curr_sma_avg := initial_data
    curr_queue_idx := 0 }

/-- `DataProcessor::split`: the construction entry point; the source panics
(`assert!`) when the window size is zero, modelled by `none`. -/
def DataProcessor.split (sma_n_size : ℕ) (initial_data : ℚ) : Option DataProcessor :=
  if sma_n_size > 0 then some (DataProcessor.splitState sma_n_size initial_data) else none

/-- `DataProcessor::write`: one observation, mirroring the source line by
line (min/max, streaming mean, O(1) SMA update through the ring, write into
the inactive slot `bound_index(idx + 1, 2)`, publish). -/
def DataProcessor.write (s : DataProcessor) (new_data : ℚ) : DataProcessor :=
  let idx := s.active2read
  let old_raw := s.slotGet idx
  let mn := min old_raw.min new_data
  let mx := max old_raw.max new_data
  let data_point := old_raw.data_point + 1
  let curr_avg := calculate_stream_mean old_raw.curr_avg new_data data_point
  let b_idx := bound_index s.curr_queue_idx s.queue.capacity
  let popped := (s.queue.swap b_idx new_data).1
  let queue1 := (s.queue.swap b_idx new_data).2
  let new_sma := s.curr_sma_avg - popped / (s.queue.capacity : ℚ)
      + new_data / (s.queue.capacity : ℚ)
  let new_raw : RawData :=
    { min := mn, max := mx, curr_avg := curr_avg, sma := new_sma, data_point := data_point }
  let bounded_idx := bound_index (idx + 1) 2
  let s1 := s.slotSet bounded_idx new_raw
  { s1 with
    active2read := bounded_idx
    queue := queue1
    curr_sma_avg := new_sma
    curr_queue_idx := b_idx + 1 }

/-- `DataProcessor::read`: return the record of the published slot. -/
def DataProcessor.read (s : DataProcessor) : RawData :=
  s.slotGet s.active2read

/-- A sequence of writes, left to right. -/
def DataProcessor.writes (s : DataProcessor) (xs : List ℚ) : DataProcessor :=
  xs.foldl DataProcessor.write s

/-- The record formed by `DataProcessor::write` (all five fields), read off
the state the write starts from. -/
def writeRecord (s : DataProcessor) (x : ℚ) : RawData :=
  { min := min (s.slotGet s.active2read).min x
    max := max (s.slotGet s.active2read).max x
    curr_avg := calculate_stream_mean (s.slotGet s.active2read).curr_avg x
      ((s.slotGet s.active2read).data_point + 1)
    sma := s.curr_sma_avg
      - s.queue.get (bound_index s.curr_queue_idx s.queue.capacity) / (s.queue.capacity : ℚ)
      + x / (s.queue.capacity : ℚ)
    data_point := (s.slotGet s.active2read).data_point + 1 }

/-! ## Derived descriptions of the engine state (used to state the claims) -/

/-- The conceptual observation sequence after seeding with `v` (window `n`)
and writing `xs`: `n` initial copies of `v` followed by the writes. -/
def conceptSeq (n : ℕ) (v : ℚ) (xs : List ℚ) : List ℚ :=
  List.replicate n v ++ xs

/-- Sum of the last `n` values of the conceptual sequence. -/
def windowSum (n : ℕ) (v : ℚ) (xs : List ℚ) : ℚ :=
  ((conceptSeq n v xs).drop xs.length).sum

/-- Value of the ring cursor `curr_queue_idx` after `k` writes: the source
advances it as `bound_index(cursor, n) + 1`, so it cycles
`0, 1, …, n-1, n, 1, 2, …`. -/
def qidxAfter (n k : ℕ) : ℕ :=
  if k = 0 then 0 else (k - 1) % n + 1

/-- The record published after seeding with `v` and writing `xs` (window
`n`): running min/max, exact streaming mean, window mean, and count. -/
def pubRecord (n : ℕ) (v : ℚ) (xs : List ℚ) : RawData :=
  { min := xs.foldl min v
    max := xs.foldl max v
    curr_avg := (v + xs.sum) / ((xs.length : ℚ) + 1)
    sma := windowSum n v xs / (n : ℚ)
    data_point := 1 + xs.length }

/-- Inductive invariant of the engine: ties every component of the state
after the writes `xs` to the conceptual sequence.  The `ring` component says
the ring cell `m % n` holds the conceptual value at position `m`, for every
position `m` of the current window `[k, k + n)`. -/
structure EngineInv (n : ℕ) (v : ℚ) (xs : List ℚ) (s : DataProcessor) : Prop where
  cap : s.queue.capacity = n
  len : s.queue.data.length = n
  qidx : s.curr_queue_idx = qidxAfter n xs.length
  act : s.active2read = xs.length % 2
  pub : s.slotGet (xs.length % 2) = pubRecord n v xs
  sma : s.curr_sma_avg = windowSum n v xs / (n : ℚ)
  ring : ∀ m, xs.length ≤ m → m < xs.length + n →
    s.queue.data.getD (m % n) 0 = (conceptSeq n v xs).getD m 0

/-! ## `utils.rs::extract_symbol` and the URL registry key (`main.rs`) -/

/-- The pattern `"symbol="` that `extract_symbol` splits on. -/
def symbolPat : List Char := String.toList "symbol="

/-- Whether `s` starts with the pattern `p` (character-wise). -/
def beginsWith : List Char → List Char → Bool
  | [], _ => true
  | _ :: _, [] => false
  | p :: ps, c :: cs => p == c && beginsWith ps cs

/-- Index of the first (leftmost) occurrence of `pat` in `s`, if any. -/
def findFirst (pat s : List Char) : Option ℕ :=
  (List.range (s.length + 1)).find? (fun i => beginsWith pat (s.drop i))

/-- One step of Rust's `str::split` iterator per fuel unit: cut at the first
occurrence of `pat` and continue after the matched pattern. -/
def splitLoop (pat : List Char) : ℕ → List Char → List (List Char)
  | 0, s => [s]
  | fuel + 1, s =>
    match findFirst pat s with
    | none => [s]
    | some i => s.take i :: splitLoop pat fuel (s.drop (i + pat.length))

/-- Rust's `s.split(pat)` collected into a list; `s.length` fuel is enough
because every match consumes at least one character of a nonempty pattern. -/
def rustSplit (pat s : List Char) : List (List Char) :=
  splitLoop pat s.length s

/-- `utils.rs::extract_symbol`: `url.split("symbol=").nth(1)`, i.e. the
second element of the split. -/
def extract_symbol (url : List Char) : Option (List Char) :=
  (rustSplit symbolPat url)[1]?

/-- The registry key as the SPEC words describe it (for comparison with
`extract_symbol`): the substring after the first occurrence of `symbol=`,
`none` when the pattern is absent. -/
def symbolKeySpec (url : List Char) : Option (List Char) :=
  (findFirst symbolPat url).map (fun i => url.drop (i + symbolPat.length))

/-! ## `rpc_manager.rs::RpcManager::init_run` -/

/-- Observable events of one poller loop. -/
inductive PollEvent where
  | fetch
  | logError
  | writeEv (price : ℚ)
  | tickWait
deriving Repr, DecidableEq

/-- Trace of `init_run` over a list of fetch outcomes (`some price` for a
successful fetch-and-decode, `none` for any error).  Mirrors the loop body:
issue the request; on success write the price and then await the ticker; on
error log and `continue` — which re-enters the loop at the request, skipping
the `ticker.tick().await`. -/
def initRunTrace : List (Option ℚ) → List PollEvent
  | [] => []
  | some p :: rest =>
    PollEvent.fetch :: PollEvent.writeEv p :: PollEvent.tickWait :: initRunTrace rest
  | none :: rest =>
    PollEvent.fetch :: PollEvent.logError :: initRunTrace rest

/-! ## `config.rs::AppConfig::from_env` -/

/-- The six environment variables read by `from_env` (`none` = unset). -/
structure EnvVars where
  urls : Option String
  interval : Option String
  sma_n : Option String
  time_out : Option String
  ip : Option String
  port : Option String

/-- `config.rs` defaults. -/
def DEFAULT_TIME_OUT : ℕ := 1000

def DEFAULT_IP : String := "127.0.0.1"

def DEFAULT_PORT : ℕ := 8000

/-- Rust's digit-string parsing shared by `u64`/`usize`/`u16::from_str`:
an optional leading `+`, then one or more ASCII digits, rejecting values
at or above `bound` (overflow). -/
def parseUIntStr (bound : ℕ) (s : String) : Option ℕ :=
  let l := match s.toList with
    | '+' :: rest => rest
    | l => l
  if l ≠ [] ∧ l.all Char.isDigit then
    let n := l.foldl (fun acc c => acc * 10 + (c.toNat - 48)) 0
    if n < bound then some n else none
  else none

/-- `u64::from_str` (used for `INTERVAL` and `TIME_OUT`). -/
def parseU64 (s : String) : Option ℕ := parseUIntStr (2 ^ 64) s

/-- `usize::from_str` (used for `SMA_N`; 64-bit target). -/
def parseUsize (s : String) : Option ℕ := parseUIntStr (2 ^ 64) s

/-- `u16::from_str` (used for `PORT`). -/
def parseU16 (s : String) : Option ℕ := parseUIntStr (2 ^ 16) s

/-- `config.rs::clean_urls`: `trim_matches` of `[` and `]`, i.e. strip all
leading and trailing brackets. -/
def clean_urls (url : String) : String :=
  let isBr := fun c => c == '[' || c == ']'
  String.mk ((((url.toList.dropWhile isBr).reverse).dropWhile isBr).reverse)

/-- Rust's `split(',')` applied to the `URLS` string (`str::split` with a
one-character pattern has the same cut-at-every-occurrence semantics). -/
def splitComma (s : String) : List String :=
  (rustSplit [','] s.toList).map String.mk

/-- The configuration assembled by `AppConfig::from_env` (the HTTP client is
represented by the timeout it is built with; durations in milliseconds). -/
structure AppConfig where
  urls : List String
  interval : ℕ
  sma_n : ℕ
  time_out : ℕ
  ip : String
  port : ℕ
deriving Repr, DecidableEq

/-- `AppConfig::from_env`: `URLS`, `INTERVAL`, `SMA_N` are required (the
`?` operator propagates a missing variable or a failed parse); `TIME_OUT`,
`IP`, `PORT` fall back to their defaults when missing — and, for `TIME_OUT`
and `PORT`, also when present but unparseable (`unwrap_or`). -/
def AppConfig.from_env (e : EnvVars) : Option AppConfig := do
  let urlsStr ← e.urls
  let urls := (splitComma urlsStr).map clean_urls
  let intervalStr ← e.interval
  let interval ← parseU64 intervalStr
  let smaStr ← e.sma_n
  let sma_n ← parseUsize smaStr
  let time_out := ((e.time_out.map (fun d => (parseU64 d).getD DEFAULT_TIME_OUT)).getD
    DEFAULT_TIME_OUT)
  let ip := e.ip.getD DEFAULT_IP
  let port := ((e.port.map (fun d => (parseU16 d).getD DEFAULT_PORT)).getD DEFAULT_PORT)
  some { urls := urls, interval := interval, sma_n := sma_n,
         time_out := time_out, ip := ip, port := port }

/-! ## `dto.rs::StatsResponse` and the transmute from `RawData` -/

/-- `dto.rs::StatsResponse`: the wire-format statistics record. -/
structure StatsResponse where
  min : ℚ
  max : ℚ
  curr_avg : ℚ
  sma : ℚ
  data_point : ℕ
deriving Repr, DecidableEq

/-- A `#[repr(C)]` 8-byte slot: every field of the two records is an
8-byte, 8-aligned scalar, so the layout is the declaration-ordered list of
slots. -/
inductive AbiSlot where
  | f64Slot (x : ℚ)
  | u64Slot (n : ℕ)
deriving Repr, DecidableEq

/-- The `#[repr(C)]` layout of `RawData`: its fields in declaration order
(`min`, `max`, `curr_avg`, `sma`, `data_point`). -/
def RawData.toRepr (r : RawData) : List AbiSlot :=
  [AbiSlot.f64Slot r.min, AbiSlot.f64Slot r.max, AbiSlot.f64Slot r.curr_avg,
   AbiSlot.f64Slot r.sma, AbiSlot.u64Slot r.data_point]

/-- Reading a `StatsResponse` from a `#[repr(C)]` layout: its fields in
declaration order; any other shape is not a valid reinterpretation. -/
def StatsResponse.ofRepr : List AbiSlot → Option StatsResponse
  | [AbiSlot.f64Slot a, AbiSlot.f64Slot b, AbiSlot.f64Slot c, AbiSlot.f64Slot d,
     AbiSlot.u64Slot e] =>
    some { min := a, max := b, curr_avg := c, sma := d, data_point := e }
  | _ => none

/-- `impl From<RawData> for StatsResponse`: the `transmute`, i.e. the bytes
of the source reinterpreted at the layout of the target. -/
def StatsResponse.fromRawData (r : RawData) : Option StatsResponse :=
  StatsResponse.ofRepr r.toRepr

/-! ## Helper lemmas -/

theorem isize2usize_neg_one : isize2usize (-1) = 2 ^ 64 - 1 := by
  decide

theorem isize2usize_zero : isize2usize 0 = 0 := by
  decide

/-- Behavior of the branchless bounding trick on `usize` values. -/
theorem bound_index_spec (idx bound_by : ℕ) (h : idx < 2 ^ 64) :
    bound_index idx bound_by = if idx < bound_by then idx else 0 := by
  unfold bound_index
  by_cases hlt : idx < bound_by
  · simp only [hlt, if_true, isize2usize_neg_one]
    exact Nat.and_pow_two_sub_one_of_lt_two_pow h
  · simp only [hlt, if_false, neg_zero, isize2usize_zero]
    exact Nat.and_zero idx

theorem bound_index_lt (idx bound_by : ℕ) (h : idx < 2 ^ 64) (hb : 0 < bound_by) :
    bound_index idx bound_by < bound_by := by
  rw [bound_index_spec idx bound_by h]
  by_cases hlt : idx < bound_by <;> simp [hlt, hb]

theorem getD_set_self {α : Type} (d a : α) :
    ∀ (l : List α) (i : ℕ), i < l.length → (l.set i a).getD i d = a := by
  intro l
  induction l with
  | nil => intro i h; simp at h
  | cons x t ih =>
    intro i h
    cases i with
    | zero => simp [List.set, List.getD]
    | succ j =>
      simp only [List.set, List.getD_cons_succ]
      exact ih j (by simpa using h)

theorem getD_set_ne {α : Type} (d a : α) :
    ∀ (l : List α) (i j : ℕ), i ≠ j → (l.set i a).getD j d = l.getD j d := by
  intro l
  induction l with
  | nil => intro i j _; simp [List.set]
  | cons x t ih =>
    intro i j hij
    cases i with
    | zero =>
      cases j with
      | zero => exact absurd rfl hij
      | succ j' => simp [List.set]
    | succ i' =>
      cases j with
      | zero => simp [List.set]
      | succ j' =>
        simp only [List.set, List.getD_cons_succ]
        exact ih i' j' (by omega)

theorem getD_append_left {α : Type} (d : α) :
    ∀ (l₁ l₂ : List α) (i : ℕ), i < l₁.length → (l₁ ++ l₂).getD i d = l₁.getD i d := by
  intro l₁
  induction l₁ with
  | nil => intro l₂ i h; simp at h
  | cons x t ih =>
    intro l₂ i h
    cases i with
    | zero => simp
    | succ j =>
      simp only [List.cons_append, List.getD_cons_succ]
      exact ih l₂ j (by simpa using h)

theorem getD_append_length {α : Type} (d a : α) :
    ∀ (l₁ l₂ : List α), (l₁ ++ a :: l₂).getD l₁.length d = a := by
  intro l₁
  induction l₁ with
  | nil => intro l₂; simp
  | cons x t ih => intro l₂; simpa using ih l₂

theorem getD_replicate {α : Type} (d a : α) (n i : ℕ) (h : i < n) :
    (List.replicate n a).getD i d = a := by
  induction n generalizing i with
  | zero => omega
  | succ m ih =>
    cases i with
    | zero => simp [List.replicate]
    | succ j => simpa [List.replicate] using ih j (by omega)

theorem drop_eq_getD_cons {α : Type} (d : α) :
    ∀ (l : List α) (i : ℕ), i < l.length → l.drop i = l.getD i d :: l.drop (i + 1) := by
  intro l
  induction l with
  | nil => intro i h; simp at h
  | cons x t ih =>
    intro i h
    cases i with
    | zero => simp
    | succ j => simpa using ih j (by simpa using h)

theorem set_append_length {α : Type} (a : α) :
    ∀ (l₁ l₂ : List α), (l₁ ++ l₂).set l₁.length a = l₁ ++ l₂.set 0 a := by
  intro l₁
  induction l₁ with
  | nil => intro l₂; simp
  | cons x t ih => intro l₂; simp [List.set, ih l₂]

/-- The residues `m % n` are distinct across a window of `n` consecutive
positions. -/
theorem mod_eq_on_window {n k m : ℕ} (h₁ : k ≤ m) (h₂ : m < k + n)
    (h : m % n = k % n) : m = k := by
  obtain ⟨t, rfl⟩ : ∃ t, m = k + t := ⟨m - k, by omega⟩
  have ht : t < n := by omega
  have : (t : ℕ) ≡ 0 [MOD n] := by
    have h' : k + t ≡ k + 0 [MOD n] := by
      simpa [Nat.ModEq] using h
    exact h'.add_left_cancel' k
  have : n ∣ t := (Nat.modEq_zero_iff_dvd).mp this
  have : t = 0 := Nat.eq_zero_of_dvd_of_lt this ht
  omega

theorem slotGet_slotSet_self (s : DataProcessor) (r : RawData) (i : ℕ) :
    (s.slotSet i r).slotGet i = r := by
  by_cases h : i = 0 <;> simp [DataProcessor.slotSet, DataProcessor.slotGet, h]

theorem slotGet_slotSet_ne (s : DataProcessor) (r : RawData) (i j : ℕ)
    (hi : i < 2) (hj : j < 2) (hij : i ≠ j) :
    (s.slotSet i r).slotGet j = s.slotGet j := by
  interval_cases i <;> interval_cases j <;>
    simp_all [DataProcessor.slotSet, DataProcessor.slotGet]

theorem initLoop_capacity (q : UnsafeQueue) (v : ℚ) :
    ∀ m, (initLoop q v m).capacity = q.capacity := by
  intro m
  induction m with
  | zero => rfl
  | succ m ih => simp [initLoop, UnsafeQueue.set, ih]

theorem initLoop_data (v : ℚ) :
    ∀ (m : ℕ) (q : UnsafeQueue), m ≤ q.data.length →
      (initLoop q v m).data = List.replicate m v ++ q.data.drop m := by
  intro m
  induction m with
  | zero => intro q _; simp [initLoop]
  | succ m ih =>
    intro q h
    have hm : m < q.data.length := by omega
    simp only [initLoop, UnsafeQueue.set]
    rw [ih q (by omega)]
    have hset := set_append_length v (List.replicate m v) (q.data.drop m)
    rw [List.length_replicate] at hset
    rw [hset, drop_eq_getD_cons 0 q.data m hm]
    simp only [List.set]
    rw [List.replicate_succ' m v]
    simp

theorem splitState_queue_data (n : ℕ) (v : ℚ) :
    (DataProcessor.splitState n v).queue.data = List.replicate n v := by
  show (initLoop (UnsafeQueue.new n) v n).data = _
  rw [initLoop_data v n (UnsafeQueue.new n) (by simp [UnsafeQueue.new])]
  simp [UnsafeQueue.new]

theorem splitState_queue_capacity (n : ℕ) (v : ℚ) :
    (DataProcessor.splitState n v).queue.capacity = n := by
  show (initLoop (UnsafeQueue.new n) v n).capacity = n
  rw [initLoop_capacity]
  rfl

/-- The cursor bounding used by `write` turns the stored cursor into the
write position `k % n` of the `k`-th write (positions cycle through the
ring). -/
theorem bound_index_qidxAfter (n k : ℕ) (hn : 0 < n) (h64 : n < 2 ^ 64) :
    bound_index (qidxAfter n k) n = k % n := by
  rcases Nat.eq_zero_or_pos k with rfl | hk
  · rw [qidxAfter, if_pos rfl, bound_index_spec 0 n (by positivity), if_pos hn]
    simp
  · have hkne : k ≠ 0 := by omega
    have hq : qidxAfter n k = (k - 1) % n + 1 := by simp [qidxAfter, hkne]
    have hmod : (k - 1) % n < n := Nat.mod_lt _ hn
    have hlt64 : qidxAfter n k < 2 ^ 64 := by omega
    rw [bound_index_spec _ _ hlt64, hq]
    have hk1 : k = (k - 1) + 1 := by omega
    by_cases hcase : (k - 1) % n + 1 < n
    · rw [if_pos hcase]
      have hn2 : 1 < n := by omega
      conv_rhs => rw [hk1]
      rw [Nat.add_mod, Nat.mod_eq_of_lt hn2]
      exact (Nat.mod_eq_of_lt hcase).symm
    · rw [if_neg hcase]
      by_cases h1 : n = 1
      · subst h1; omega
      · have hn2 : 1 < n := by omega
        have heq : (k - 1) % n = n - 1 := by omega
        conv_rhs => rw [hk1]
        rw [Nat.add_mod, Nat.mod_eq_of_lt hn2, heq]
        have hsucc : n - 1 + 1 = n := by omega
        rw [hsucc, Nat.mod_self]

theorem bound_index_two (i : ℕ) (h : i < 2) :
    bound_index (i + 1) 2 = (i + 1) % 2 := by
  have h64 : i + 1 < 2 ^ 64 := by
    have : (2 : ℕ) ≤ 2 ^ 64 := by norm_num
    omega
  rw [bound_index_spec _ _ h64]
  interval_cases i <;> simp

theorem calculate_stream_mean_exact (S x : ℚ) (m : ℕ) :
    calculate_stream_mean (S / ((m : ℚ) + 1)) x (m + 2) = (S + x) / ((m : ℚ) + 2) := by
  have h1 : ((m : ℚ) + 1) ≠ 0 := by positivity
  have h2 : ((m : ℚ) + 2) ≠ 0 := by positivity
  unfold calculate_stream_mean
  push_cast
  field_simp
  ring

theorem conceptSeq_length (n : ℕ) (v : ℚ) (xs : List ℚ) :
    (conceptSeq n v xs).length = n + xs.length := by
  simp [conceptSeq]

theorem windowSum_nil (n : ℕ) (v : ℚ) : windowSum n v [] = (n : ℚ) * v := by
  simp [windowSum, conceptSeq, List.sum_replicate, nsmul_eq_mul]

theorem windowSum_snoc (n : ℕ) (v x : ℚ) (xs : List ℚ) (hn : 0 < n) :
    windowSum n v (xs ++ [x]) =
      windowSum n v xs - (conceptSeq n v xs).getD xs.length 0 + x := by
  have hk : xs.length < (conceptSeq n v xs).length := by
    rw [conceptSeq_length]; omega
  have hcs : conceptSeq n v (xs ++ [x]) = conceptSeq n v xs ++ [x] := by
    simp [conceptSeq]
  unfold windowSum
  rw [hcs, List.length_append, List.length_singleton,
    List.drop_append_of_le_length (by omega)]
  conv_rhs => rw [drop_eq_getD_cons 0 (conceptSeq n v xs) xs.length hk]
  simp

/-! ## Unfolding lemmas for `DataProcessor.write` -/

theorem write_active2read (s : DataProcessor) (x : ℚ) :
    (s.write x).active2read = bound_index (s.active2read + 1) 2 := rfl

theorem write_curr_queue_idx (s : DataProcessor) (x : ℚ) :
    (s.write x).curr_queue_idx =
      bound_index s.curr_queue_idx s.queue.capacity + 1 := rfl

theorem write_queue (s : DataProcessor) (x : ℚ) :
    (s.write x).queue =
      s.queue.set x (bound_index s.curr_queue_idx s.queue.capacity) := rfl

theorem write_curr_sma_avg (s : DataProcessor) (x : ℚ) :
    (s.write x).curr_sma_avg = (writeRecord s x).sma := rfl

theorem write_slotGet (s : DataProcessor) (x : ℚ) (j : ℕ) :
    (s.write x).slotGet j =
      (s.slotSet (bound_index (s.active2read + 1) 2) (writeRecord s x)).slotGet j := rfl

/-! ## The engine invariant -/

theorem engineInv_nil (n : ℕ) (v : ℚ) (hn : 0 < n) :
    EngineInv n v [] (DataProcessor.splitState n v) := by
  have hnq : ((n : ℚ)) ≠ 0 := by positivity
  have hsma : v = windowSum n v [] / (n : ℚ) := by
    rw [windowSum_nil, mul_comm, mul_div_assoc, div_self hnq, mul_one]
  refine ⟨splitState_queue_capacity n v, ?_, rfl, rfl, ?_, ?_, ?_⟩
  · rw [splitState_queue_data]; simp
  · show (DataProcessor.splitState n v).slotGet 0 = pubRecord n v []
    have h1 : (DataProcessor.splitState n v).slotGet 0 =
        { min := v, max := v, curr_avg := v, sma := v, data_point := 1 } := rfl
    rw [h1]
    ext <;> simp [pubRecord]
    exact hsma
  · exact hsma
  · intro m hm₁ hm₂
    rw [splitState_queue_data]
    have h1 : m % n < n := Nat.mod_lt _ hn
    have h3 : m < n := by simpa using hm₂
    rw [getD_replicate 0 v n (m % n) h1]
    show _ = (conceptSeq n v []).getD m 0
    have h2 : conceptSeq n v [] = List.replicate n v := by simp [conceptSeq]
    rw [h2, getD_replicate 0 v n m h3]

theorem engineInv_step (n : ℕ) (v x : ℚ) (xs : List ℚ) (s : DataProcessor)
    (hn : 0 < n) (h64 : n < 2 ^ 64) (inv : EngineInv n v xs s) :
    EngineInv n v (xs ++ [x]) (s.write x) := by
  have hb : bound_index s.curr_queue_idx s.queue.capacity = xs.length % n := by
    rw [inv.qidx, inv.cap]
    exact bound_index_qidxAfter n xs.length hn h64
  have hold : s.slotGet s.active2read = pubRecord n v xs := by
    rw [inv.act]; exact inv.pub
  have hbnd2 : bound_index (s.active2read + 1) 2 = (xs.length + 1) % 2 := by
    rw [inv.act]
    rw [bound_index_two (xs.length % 2) (Nat.mod_lt _ (by omega))]
    omega
  have hpop : s.queue.get (bound_index s.curr_queue_idx s.queue.capacity)
      = (conceptSeq n v xs).getD xs.length 0 := by
    rw [hb]
    show s.queue.data.getD (xs.length % n) 0 = _
    exact inv.ring xs.length (le_refl _) (by omega)
  have hrecord : writeRecord s x = pubRecord n v (xs ++ [x]) := by
    ext
    · show min (s.slotGet s.active2read).min x = (pubRecord n v (xs ++ [x])).min
      rw [hold]
      simp [pubRecord, List.foldl_append]
    · show max (s.slotGet s.active2read).max x = (pubRecord n v (xs ++ [x])).max
      rw [hold]
      simp [pubRecord, List.foldl_append]
    · show calculate_stream_mean (s.slotGet s.active2read).curr_avg x
        ((s.slotGet s.active2read).data_point + 1) = (pubRecord n v (xs ++ [x])).curr_avg
      rw [hold]
      show calculate_stream_mean ((v + xs.sum) / ((xs.length : ℚ) + 1)) x
        ((1 + xs.length) + 1) = _
      have harg : (1 + xs.length) + 1 = xs.length + 2 := by omega
      rw [harg, calculate_stream_mean_exact (v + xs.sum) x xs.length]
      simp only [pubRecord, List.sum_append, List.length_append, List.sum_cons,
        List.sum_nil, List.length_singleton]
      push_cast
      ring
    · show (writeRecord s x).sma = (pubRecord n v (xs ++ [x])).sma
      show s.curr_sma_avg
          - s.queue.get (bound_index s.curr_queue_idx s.queue.capacity) / (s.queue.capacity : ℚ)
          + x / (s.queue.capacity : ℚ) = _
      rw [inv.sma, hpop, inv.cap]
      simp only [pubRecord]
      rw [windowSum_snoc n v x xs hn]
      ring
    · show (s.slotGet s.active2read).data_point + 1 = (pubRecord n v (xs ++ [x])).data_point
      rw [hold]
      simp [pubRecord]
      omega
  refine ⟨?_, ?_, ?_, ?_, ?_, ?_, ?_⟩
  · rw [write_queue]
    show s.queue.capacity = n
    exact inv.cap
  · rw [write_queue]
    show (s.queue.data.set _ _).length = n
    rw [List.length_set]
    exact inv.len
  · rw [write_curr_queue_idx, hb]
    simp [qidxAfter]
  · rw [write_active2read, hbnd2]
    simp
  · rw [write_slotGet, List.length_append, List.length_singleton, hbnd2,
      slotGet_slotSet_self]
    exact hrecord
  · rw [write_curr_sma_avg, hrecord]
    simp [pubRecord]
  · intro m hm₁ hm₂
    rw [List.length_append, List.length_singleton] at hm₁ hm₂
    rw [write_queue]
    show (s.queue.data.set (bound_index s.curr_queue_idx s.queue.capacity) x).getD (m % n) 0 = _
    rw [hb]
    have hseq : conceptSeq n v (xs ++ [x]) = conceptSeq n v xs ++ [x] := by
      simp [conceptSeq]
    have hlen : (conceptSeq n v xs).length = n + xs.length := conceptSeq_length n v xs
    by_cases hm : m = xs.length + n
    · subst hm
      have hmod : (xs.length + n) % n = xs.length % n := by
        simp [Nat.add_mod_right]
      rw [hmod, getD_set_self 0 x s.queue.data (xs.length % n)
        (by rw [inv.len]; exact Nat.mod_lt _ hn)]
      rw [hseq]
      have hx : (conceptSeq n v xs ++ [x]).getD (xs.length + n) 0 = x := by
        have := getD_append_length 0 x (conceptSeq n v xs) []
        rw [hlen] at this
        simpa [Nat.add_comm] using this
      rw [hx]
    · have hm₃ : m < xs.length + n := by omega
      have hne : xs.length % n ≠ m % n := by
        intro hcontra
        have := mod_eq_on_window (k := xs.length) (m := m) (by omega) (by omega) hcontra.symm
        omega
      rw [getD_set_ne 0 x s.queue.data (xs.length % n) (m % n) hne]
      rw [inv.ring m (by omega) (by omega), hseq,
        getD_append_left 0 (conceptSeq n v xs) [x] m (by omega)]

theorem engineInv_holds (n : ℕ) (v : ℚ) (hn : 0 < n) (h64 : n < 2 ^ 64) :
    ∀ xs, EngineInv n v xs ((DataProcessor.splitState n v).writes xs) := by
  intro xs
  induction xs using List.reverseRecOn with
  | nil => exact engineInv_nil n v hn
  | append_singleton ys x ih =>
    have hw : (DataProcessor.splitState n v).writes (ys ++ [x]) =
        ((DataProcessor.splitState n v).writes ys).write x := by
      simp [DataProcessor.writes]
    rw [hw]
    exact engineInv_step n v x ys _ hn h64 ih

/-- The snapshot `read()` returns after any write sequence. -/
theorem read_writes (n : ℕ) (v : ℚ) (xs : List ℚ) (hn : 0 < n) (h64 : n < 2 ^ 64) :
    ((DataProcessor.splitState n v).writes xs).read = pubRecord n v xs := by
  have inv := engineInv_holds n v hn h64 xs
  show ((DataProcessor.splitState n v).writes xs).slotGet _ = _
  rw [inv.act]
  exact inv.pub

/-! ## Order lemmas for the running min/max and the streaming mean -/

theorem foldl_min_le_init (xs : List ℚ) : ∀ a : ℚ, xs.foldl min a ≤ a := by
  induction xs with
  | nil => intro a; simp
  | cons x t ih =>
    intro a
    calc t.foldl min (min a x) ≤ min a x := ih (min a x)
    _ ≤ a := min_le_left a x

theorem le_foldl_max_init (xs : List ℚ) : ∀ a : ℚ, a ≤ xs.foldl max a := by
  induction xs with
  | nil => intro a; simp
  | cons x t ih =>
    intro a
    calc a ≤ max a x := le_max_left a x
    _ ≤ t.foldl max (max a x) := ih (max a x)

theorem foldl_min_le_mem (xs : List ℚ) (x : ℚ) (hx : x ∈ xs) :
    ∀ a : ℚ, xs.foldl min a ≤ x := by
  induction xs with
  | nil => cases hx
  | cons y t ih =>
    intro a
    rcases List.mem_cons.mp hx with rfl | hmem
    · calc t.foldl min (min a x) ≤ min a x := foldl_min_le_init t (min a x)
      _ ≤ x := min_le_right a x
    · exact ih hmem (min a y)

theorem le_foldl_max_mem (xs : List ℚ) (x : ℚ) (hx : x ∈ xs) :
    ∀ a : ℚ, x ≤ xs.foldl max a := by
  induction xs with
  | nil => cases hx
  | cons y t ih =>
    intro a
    rcases List.mem_cons.mp hx with rfl | hmem
    · calc x ≤ max a x := le_max_right a x
      _ ≤ t.foldl max (max a x) := le_foldl_max_init t (max a x)
    · exact ih hmem (max a y)

theorem card_mul_foldl_min_le_sum (xs : List ℚ) :
    ∀ a : ℚ, ((xs.length : ℚ) + 1) * xs.foldl min a ≤ a + xs.sum := by
  induction xs with
  | nil => intro a; simp
  | cons x t ih =>
    intro a
    simp only [List.foldl_cons, List.sum_cons, List.length_cons]
    push_cast
    have hIH := ih (min a x)
    have hM : t.foldl min (min a x) ≤ min a x := foldl_min_le_init t (min a x)
    have hmm : min a x + max a x = a + x := min_add_max a x
    have hmx : min a x ≤ max a x := min_le_max
    have hexp : ((t.length : ℚ) + 1 + 1) * t.foldl min (min a x)
        = ((t.length : ℚ) + 1) * t.foldl min (min a x) + t.foldl min (min a x) := by
      ring
    linarith

theorem sum_le_card_mul_foldl_max (xs : List ℚ) :
    ∀ a : ℚ, a + xs.sum ≤ ((xs.length : ℚ) + 1) * xs.foldl max a := by
  induction xs with
  | nil => intro a; simp
  | cons x t ih =>
    intro a
    simp only [List.foldl_cons, List.sum_cons, List.length_cons]
    push_cast
    have hIH := ih (max a x)
    have hM : max a x ≤ t.foldl max (max a x) := le_foldl_max_init t (max a x)
    have hmm : min a x + max a x = a + x := min_add_max a x
    have hmx : min a x ≤ max a x := min_le_max
    have hexp : ((t.length : ℚ) + 1 + 1) * t.foldl max (max a x)
        = ((t.length : ℚ) + 1) * t.foldl max (max a x) + t.foldl max (max a x) := by
      ring
    linarith

/-! ## Claim theorems for the statistics engine -/

/-- C1: for every window size `N > 0` (a `usize`), seed `v`, and writes
`x_1 … x_k` performed after `split(N, v)`, the `sma` field of the snapshot
returned by `read()` equals the arithmetic mean of the last `N` values of
the conceptual sequence `[v, …, v, x_1, …, x_k]` (`N` initial copies of
`v`), with arithmetic interpreted exactly. -/
theorem c1_sma_is_window_mean (n : ℕ) (v : ℚ) (xs : List ℚ) (s : DataProcessor)
    (hn : 0 < n) (h64 : n < 2 ^ 64) (hs : DataProcessor.split n v = some s) :
    ((s.writes xs).read).sma
      = ((List.replicate n v ++ xs).drop xs.length).sum / (n : ℚ) := by
  have hsplit : s = DataProcessor.splitState n v := by
    rw [DataProcessor.split, if_pos hn] at hs
    exact (Option.some.injEq _ _).mp hs.symm
  subst hsplit
  rw [read_writes n v xs hn h64]
  rfl

/-- Witness for C1 at `split(4, 1)` and writes `[2, 3, 4, 5, 6]`
(scenario 3 of the spec: final SMA `4.5`). -/
theorem c1_sma_is_window_mean_witness :
    (((DataProcessor.splitState 4 1).writes [2, 3, 4, 5, 6]).read).sma
      = ((List.replicate 4 (1 : ℚ) ++ [2, 3, 4, 5, 6]).drop 5).sum / (4 : ℚ) :=
  c1_sma_is_window_mean 4 1 [2, 3, 4, 5, 6] (DataProcessor.splitState 4 1)
    (by norm_num) (by norm_num) (by rw [DataProcessor.split, if_pos (by norm_num)])

/-- C2: for every `N > 0` (a `usize`), seed `v`, and writes `x_1 … x_k`,
the snapshot returned by `read()` satisfies `min ≤ curr_avg ≤ max`,
`min ≤ x_i ≤ max` for every written `x_i`, `data_point = 1 + k`, and `sma`
is the (finite) rational window mean. -/
theorem c2_snapshot_invariants (n : ℕ) (v : ℚ) (xs : List ℚ) (s : DataProcessor)
    (hn : 0 < n) (h64 : n < 2 ^ 64) (hs : DataProcessor.split n v = some s) :
    ((s.writes xs).read).min ≤ ((s.writes xs).read).curr_avg ∧
    ((s.writes xs).read).curr_avg ≤ ((s.writes xs).read).max ∧
    (∀ x ∈ xs, ((s.writes xs).read).min ≤ x ∧ x ≤ ((s.writes xs).read).max) ∧
    ((s.writes xs).read).data_point = 1 + xs.length ∧
    ((s.writes xs).read).sma
      = ((List.replicate n v ++ xs).drop xs.length).sum / (n : ℚ) := by
  have hsplit : s = DataProcessor.splitState n v := by
    rw [DataProcessor.split, if_pos hn] at hs
    exact (Option.some.injEq _ _).mp hs.symm
  subst hsplit
  rw [read_writes n v xs hn h64]
  have hpos : (0 : ℚ) < (xs.length : ℚ) + 1 := by positivity
  refine ⟨?_, ?_, ?_, rfl, rfl⟩
  · show xs.foldl min v ≤ (v + xs.sum) / ((xs.length : ℚ) + 1)
    rw [le_div_iff₀ hpos, mul_comm]
    exact card_mul_foldl_min_le_sum xs v
  · show (v + xs.sum) / ((xs.length : ℚ) + 1) ≤ xs.foldl max v
    rw [div_le_iff₀ hpos, mul_comm]
    exact sum_le_card_mul_foldl_max xs v
  · intro x hx
    exact ⟨foldl_min_le_mem xs x hx v, le_foldl_max_mem xs x hx v⟩

/-- Witness for C2 at `split(3, 2)` and writes `[4, 0, 10, 5]`
(scenario 2 of the spec). -/
theorem c2_snapshot_invariants_witness :
    (((DataProcessor.splitState 3 2).writes [4, 0, 10, 5]).read).min
        ≤ (((DataProcessor.splitState 3 2).writes [4, 0, 10, 5]).read).curr_avg ∧
    (((DataProcessor.splitState 3 2).writes [4, 0, 10, 5]).read).curr_avg
        ≤ (((DataProcessor.splitState 3 2).writes [4, 0, 10, 5]).read).max ∧
    (∀ x ∈ [(4 : ℚ), 0, 10, 5],
      (((DataProcessor.splitState 3 2).writes [4, 0, 10, 5]).read).min ≤ x ∧
      x ≤ (((DataProcessor.splitState 3 2).writes [4, 0, 10, 5]).read).max) ∧
    (((DataProcessor.splitState 3 2).writes [4, 0, 10, 5]).read).data_point
        = 1 + ([(4 : ℚ), 0, 10, 5]).length ∧
    (((DataProcessor.splitState 3 2).writes [4, 0, 10, 5]).read).sma
      = ((List.replicate 3 (2 : ℚ) ++ [4, 0, 10, 5]).drop 4).sum / (3 : ℚ) :=
  c2_snapshot_invariants 3 2 [4, 0, 10, 5] (DataProcessor.splitState 3 2)
    (by norm_num) (by norm_num) (by rw [DataProcessor.split, if_pos (by norm_num)])

/-- C9: immediately after `split(N, v)` with `N > 0` and before any write,
`read()` returns `{min = v, max = v, curr_avg = v, sma = v, data_point = 1}`
and every slot of the SMA ring holds `v`. -/
theorem c9_initial_snapshot (n : ℕ) (v : ℚ) (hn : 0 < n) :
    DataProcessor.split n v = some (DataProcessor.splitState n v) ∧
    (DataProcessor.splitState n v).read =
      { min := v, max := v, curr_avg := v, sma := v, data_point := 1 } ∧
    (DataProcessor.splitState n v).queue.data = List.replicate n v := by
  exact ⟨by rw [DataProcessor.split, if_pos hn], rfl, splitState_queue_data n v⟩

/-- Witness for C9 at `split(4, 1)` (scenario 1 of the spec). -/
theorem c9_initial_snapshot_witness :
    DataProcessor.split 4 1 = some (DataProcessor.splitState 4 1) ∧
    (DataProcessor.splitState 4 1).read =
      { min := 1, max := 1, curr_avg := 1, sma := 1, data_point := 1 } ∧
    (DataProcessor.splitState 4 1).queue.data = List.replicate 4 (1 : ℚ) :=
  c9_initial_snapshot 4 1 (by norm_num)

/-- C3: in every reachable engine state the published slot index
`active2read` is `0` or `1` (it equals the parity of the number of writes,
so it alternates on every write); each write stores its new record into the
slot other than the one it loaded (`i ^^^ 1`), leaves the loaded slot
untouched, and publishes the written slot. -/
theorem c3_slot_alternation (n : ℕ) (v : ℚ) (xs : List ℚ) (x : ℚ)
    (hn : 0 < n) (h64 : n < 2 ^ 64) :
    ((DataProcessor.splitState n v).writes xs).active2read = xs.length % 2 ∧
    ((DataProcessor.splitState n v).writes xs).active2read < 2 ∧
    (((DataProcessor.splitState n v).writes xs).write x).active2read
      = ((DataProcessor.splitState n v).writes xs).active2read ^^^ 1 ∧
    (((DataProcessor.splitState n v).writes xs).write x).slotGet
        (((DataProcessor.splitState n v).writes xs).active2read ^^^ 1)
      = writeRecord ((DataProcessor.splitState n v).writes xs) x ∧
    (((DataProcessor.splitState n v).writes xs).write x).slotGet
        (((DataProcessor.splitState n v).writes xs).active2read)
      = ((DataProcessor.splitState n v).writes xs).slotGet
        (((DataProcessor.splitState n v).writes xs).active2read) := by
  have inv := engineInv_holds n v hn h64 xs
  have hact : ((DataProcessor.splitState n v).writes xs).active2read = xs.length % 2 :=
    inv.act
  have hlt : ((DataProcessor.splitState n v).writes xs).active2read < 2 := by
    rw [hact]; exact Nat.mod_lt _ (by omega)
  have hxor : ∀ i : ℕ, i < 2 → bound_index (i + 1) 2 = i ^^^ 1 := by
    intro i hi
    rw [bound_index_two i hi]
    interval_cases i <;> rfl
  have hbnd : bound_index (((DataProcessor.splitState n v).writes xs).active2read + 1) 2
      = ((DataProcessor.splitState n v).writes xs).active2read ^^^ 1 :=
    hxor _ hlt
  have hne : ((DataProcessor.splitState n v).writes xs).active2read ^^^ 1
      ≠ ((DataProcessor.splitState n v).writes xs).active2read := by
    interval_cases h : ((DataProcessor.splitState n v).writes xs).active2read <;> decide
  have hxorlt : ((DataProcessor.splitState n v).writes xs).active2read ^^^ 1 < 2 := by
    interval_cases h : ((DataProcessor.splitState n v).writes xs).active2read <;> decide
  refine ⟨hact, hlt, ?_, ?_, ?_⟩
  · rw [write_active2read, hbnd]
  · rw [write_slotGet, hbnd, slotGet_slotSet_self]
  · rw [write_slotGet, hbnd]
    exact slotGet_slotSet_ne _ _ _ _ hxorlt hlt hne

/-- Witness for C3 at `split(2, 0)` with one prior write then a write of `5`. -/
theorem c3_slot_alternation_witness :
    ((DataProcessor.splitState 2 0).writes [7]).active2read = [(7 : ℚ)].length % 2 ∧
    ((DataProcessor.splitState 2 0).writes [7]).active2read < 2 ∧
    (((DataProcessor.splitState 2 0).writes [7]).write 5).active2read
      = ((DataProcessor.splitState 2 0).writes [7]).active2read ^^^ 1 ∧
    (((DataProcessor.splitState 2 0).writes [7]).write 5).slotGet
        (((DataProcessor.splitState 2 0).writes [7]).active2read ^^^ 1)
      = writeRecord ((DataProcessor.splitState 2 0).writes [7]) 5 ∧
    (((DataProcessor.splitState 2 0).writes [7]).write 5).slotGet
        (((DataProcessor.splitState 2 0).writes [7]).active2read)
      = ((DataProcessor.splitState 2 0).writes [7]).slotGet
        (((DataProcessor.splitState 2 0).writes [7]).active2read) :=
  c3_slot_alternation 2 0 [7] 5 (by norm_num) (by norm_num)

/-- C5: in every state reachable after `split(N, v)` with `N > 0`, the
bounded cursor used to index the SMA ring inside `write` (through
`UnsafeQueue::swap`, hence `get` and `set`) is strictly below the ring
capacity `N`, so the `debug_assert!(idx < self.capacity)` always holds. -/
theorem c5_ring_index_in_bounds (n : ℕ) (v : ℚ) (xs : List ℚ)
    (hn : 0 < n) (h64 : n < 2 ^ 64) :
    ((DataProcessor.splitState n v).writes xs).queue.capacity = n ∧
    bound_index ((DataProcessor.splitState n v).writes xs).curr_queue_idx
        ((DataProcessor.splitState n v).writes xs).queue.capacity
      < ((DataProcessor.splitState n v).writes xs).queue.capacity := by
  have inv := engineInv_holds n v hn h64 xs
  refine ⟨inv.cap, ?_⟩
  rw [inv.qidx, inv.cap, bound_index_qidxAfter n xs.length hn h64]
  exact Nat.mod_lt _ hn

/-- Witness for C5 at `split(3, 1)` after writes `[5, 6, 7, 8]` (the cursor
has wrapped once). -/
theorem c5_ring_index_in_bounds_witness :
    ((DataProcessor.splitState 3 1).writes [5, 6, 7, 8]).queue.capacity = 3 ∧
    bound_index ((DataProcessor.splitState 3 1).writes [5, 6, 7, 8]).curr_queue_idx
        ((DataProcessor.splitState 3 1).writes [5, 6, 7, 8]).queue.capacity
      < ((DataProcessor.splitState 3 1).writes [5, 6, 7, 8]).queue.capacity :=
  c5_ring_index_in_bounds 3 1 [5, 6, 7, 8] (by norm_num) (by norm_num)

/-- C4: for every `usize` index and bound, `bound_index(idx, bound)`
returns `idx` when `idx < bound` and `0` otherwise — a reset to zero, not a
modulus — although it is implemented with a sign-bit mask via
`isize2usize`. -/
theorem c4_bound_index_resets (idx bound_by : ℕ) (h : idx < 2 ^ 64) :
    bound_index idx bound_by = if idx < bound_by then idx else 0 :=
  bound_index_spec idx bound_by h

/-- Witness for C4 at the documented examples `bound_index(3, 5) = 3` and
`bound_index(7, 5) = 0`. -/
theorem c4_bound_index_resets_witness :
    bound_index 3 5 = (if 3 < 5 then 3 else 0) ∧
    bound_index 7 5 = (if 7 < 5 then 7 else 0) :=
  ⟨c4_bound_index_resets 3 5 (by norm_num), c4_bound_index_resets 7 5 (by norm_num)⟩

/-- C10: converting a `RawData` snapshot into a `StatsResponse` by the
`#[repr(C)]`-to-`#[repr(C)]` transmute yields a response whose five fields
equal the corresponding fields of the snapshot (both structs lay out
`min, max, curr_avg, sma, data_point` in that order). -/
theorem c10_transmute_preserves_fields (r : RawData) :
    StatsResponse.fromRawData r =
      some { min := r.min, max := r.max, curr_avg := r.curr_avg,
             sma := r.sma, data_point := r.data_point } := rfl

/-- C7 counterexample: with a failing first fetch and a successful second
one, the trace of `init_run` shows the error logged at step 1 immediately
followed by the next request at step 2 — the `continue` skips
`ticker.tick().await`, so the poller does NOT wait for the next interval
tick before issuing the next request. -/
theorem c7_no_tick_after_error :
    initRunTrace [none, some 1] =
      [PollEvent.fetch, PollEvent.logError, PollEvent.fetch,
       PollEvent.writeEv 1, PollEvent.tickWait] ∧
    (initRunTrace [none, some 1])[1]? = some PollEvent.logError ∧
    (initRunTrace [none, some 1])[2]? = some PollEvent.fetch := by
  refine ⟨rfl, rfl, rfl⟩

/-- C7 (amended): on a failing fetch the poller logs the error, performs no
write, and the loop continues — but it re-issues the next request
immediately, without waiting for an interval tick; in particular a run of
consecutive failures produces no write and no tick wait at all. -/
theorem c7_error_path (rest : List (Option ℚ)) (k : ℕ) :
    initRunTrace (none :: rest)
      = PollEvent.fetch :: PollEvent.logError :: initRunTrace rest ∧
    (∀ p : ℚ, PollEvent.writeEv p ∉ initRunTrace (List.replicate k none)) ∧
    PollEvent.tickWait ∉ initRunTrace (List.replicate k none) := by
  refine ⟨rfl, ?_, ?_⟩
  · intro p
    induction k with
    | zero => simp [initRunTrace]
    | succ m ih =>
      simp only [List.replicate_succ, initRunTrace, List.mem_cons]
      push_neg
      exact ⟨by simp, by simp, ih⟩
  · induction k with
    | zero => simp [initRunTrace]
    | succ m ih =>
      simp only [List.replicate_succ, initRunTrace, List.mem_cons]
      push_neg
      exact ⟨by simp, by simp, ih⟩

/-! ## Lemmas for `extract_symbol` -/

theorem beginsWith_ne_nil (pat l : List Char) (hpat : pat ≠ [])
    (h : beginsWith pat l = true) : l ≠ [] := by
  cases pat with
  | nil => exact absurd rfl hpat
  | cons p ps =>
    cases l with
    | nil => simp [beginsWith] at h
    | cons c cs => simp

theorem findFirst_beginsWith (pat s : List Char) (i : ℕ)
    (h : findFirst pat s = some i) : beginsWith pat (s.drop i) = true := by
  unfold findFirst at h
  have h2 := List.find?_some h
  simpa using h2

theorem splitLoop_of_none (pat s : List Char) (h : findFirst pat s = none) :
    ∀ fuel, splitLoop pat fuel s = [s] := by
  intro fuel
  cases fuel with
  | zero => rfl
  | succ m => simp [splitLoop, h]

theorem symbolPat_ne_nil : symbolPat ≠ [] := by decide

theorem symbolPat_length : symbolPat.length = 7 := by decide

/-- If the pattern occurs at `i` in `s` then `i` is a real position. -/
theorem findFirst_lt_length (pat s : List Char) (i : ℕ) (hpat : pat ≠ [])
    (h : findFirst pat s = some i) : i < s.length := by
  have hbw := findFirst_beginsWith pat s i h
  have hne := beginsWith_ne_nil pat _ hpat hbw
  by_contra hcontra
  exact hne (List.drop_eq_nil_of_le (by omega))

/-- C6 counterexample: on the URL `"symbol=Asymbol=B"` (two occurrences of
`symbol=`), `extract_symbol` returns `"A"` — the segment up to the next
occurrence — while the substring after the first occurrence of `symbol=`
(the claim's key) is `"Asymbol=B"`. -/
theorem c6_key_not_suffix_counterexample :
    extract_symbol (String.toList "symbol=Asymbol=B") = some (String.toList "A") ∧
    symbolKeySpec (String.toList "symbol=Asymbol=B")
      = some (String.toList "Asymbol=B") ∧
    extract_symbol (String.toList "symbol=Asymbol=B")
      ≠ symbolKeySpec (String.toList "symbol=Asymbol=B") := by
  refine ⟨by decide, by decide, by decide⟩

/-- C6 (amended): the registry key produced by symbol extraction is the
segment of the URL strictly between the first occurrence of `symbol=` and
the next occurrence (to the end of the URL when there is no further
occurrence), and extraction yields no key exactly when `symbol=` does not
occur in the URL. -/
theorem c6_registry_key (url : List Char) :
    (extract_symbol url = none ↔ findFirst symbolPat url = none) ∧
    (∀ i, findFirst symbolPat url = some i →
      (findFirst symbolPat (url.drop (i + symbolPat.length)) = none →
        extract_symbol url = some (url.drop (i + symbolPat.length))) ∧
      (∀ j, findFirst symbolPat (url.drop (i + symbolPat.length)) = some j →
        extract_symbol url = some ((url.drop (i + symbolPat.length)).take j))) := by
  have hB : ∀ i, findFirst symbolPat url = some i →
      (findFirst symbolPat (url.drop (i + symbolPat.length)) = none →
        extract_symbol url = some (url.drop (i + symbolPat.length))) ∧
      (∀ j, findFirst symbolPat (url.drop (i + symbolPat.length)) = some j →
        extract_symbol url = some ((url.drop (i + symbolPat.length)).take j)) := by
    intro i hi
    have hlt : i < url.length := findFirst_lt_length symbolPat url i symbolPat_ne_nil hi
    obtain ⟨L, hL⟩ : ∃ L, url.length = L + 1 := ⟨url.length - 1, by omega⟩
    constructor
    · intro hnone
      unfold extract_symbol rustSplit
      rw [hL]
      simp only [splitLoop, hi]
      rw [splitLoop_of_none _ _ hnone L]
      simp
    · intro j hj
      have hlt2 : j < (url.drop (i + symbolPat.length)).length :=
        findFirst_lt_length _ _ j symbolPat_ne_nil hj
      have hdroplen : (url.drop (i + symbolPat.length)).length
          = url.length - (i + symbolPat.length) := List.length_drop _ _
      have h7 := symbolPat_length
      have hL1 : 1 ≤ L := by omega
      obtain ⟨L₂, hL₂⟩ : ∃ L₂, L = L₂ + 1 := ⟨L - 1, by omega⟩
      unfold extract_symbol rustSplit
      rw [hL, hL₂]
      simp only [splitLoop, hi, hj]
      simp
  refine ⟨⟨?_, ?_⟩, hB⟩
  · intro hnone
    cases hf : findFirst symbolPat url with
    | none => rfl
    | some i =>
      rcases hB i hf with ⟨h1, h2⟩
      cases hrest : findFirst symbolPat (url.drop (i + symbolPat.length)) with
      | none => rw [h1 hrest] at hnone; exact absurd hnone (by simp)
      | some j => rw [h2 j hrest] at hnone; exact absurd hnone (by simp)
  · intro hf
    unfold extract_symbol rustSplit
    rw [splitLoop_of_none _ _ hf]
    simp

/-- Witness for C6 (amended) at the well-formed URL `"a?symbol=BTC"`
(single occurrence: the key runs to the end of the URL). -/
theorem c6_registry_key_witness :
    extract_symbol (String.toList "a?symbol=BTC")
      = some ((String.toList "a?symbol=BTC").drop (2 + symbolPat.length)) :=
  ((c6_registry_key (String.toList "a?symbol=BTC")).2 2 (by decide)).1 (by decide)

/-- C8 counterexample: with all required variables present and parseable
but `TIME_OUT` set to the unparseable string `"abc"`, the claim says
loading must fail; `from_env` instead succeeds, silently substituting the
default timeout `1000`. -/
theorem c8_unparseable_timeout_not_fatal :
    AppConfig.from_env
      { urls := some "u"
        interval := some "5"
        sma_n := some "3"
        time_out := some "abc"
        ip := none
        port := none }
      = some
      { urls := ["u"]
        interval := 5
        sma_n := 3
        time_out := 1000
        ip := "127.0.0.1"
        port := 8000 } := by decide

/-- C8 (amended): configuration loading fails exactly when a required
variable (`URLS`, `INTERVAL`, `SMA_N`) is missing or a required value
(`INTERVAL`, `SMA_N`) is unparseable; on success the optional `TIME_OUT`,
`IP` and `PORT` take their documented defaults when absent — and
`TIME_OUT`/`PORT` also fall back to the default when present but
unparseable. -/
theorem c8_from_env_failure_modes (e : EnvVars) :
    (AppConfig.from_env e = none ↔
      e.urls = none ∨ e.interval.bind parseU64 = none ∨ e.sma_n.bind parseUsize = none) ∧
    (∀ cfg, AppConfig.from_env e = some cfg →
      cfg.time_out
          = (e.time_out.map (fun d => (parseU64 d).getD DEFAULT_TIME_OUT)).getD
            DEFAULT_TIME_OUT ∧
      cfg.ip = e.ip.getD DEFAULT_IP ∧
      cfg.port = (e.port.map (fun d => (parseU16 d).getD DEFAULT_PORT)).getD DEFAULT_PORT) := by
  obtain ⟨u, itv, sm, tmo, ipv, po⟩ := e
  cases u with
  | none => simp [AppConfig.from_env]
  | some us =>
    cases itv with
    | none => simp [AppConfig.from_env]
    | some is =>
      cases hpi : parseU64 is with
      | none => simp [AppConfig.from_env, hpi]
      | some iv =>
        cases sm with
        | none => simp [AppConfig.from_env, hpi]
        | some ss =>
          cases hps : parseUsize ss with
          | none => simp [AppConfig.from_env, hpi, hps]
          | some sv =>
            constructor
            · simp [AppConfig.from_env, hpi, hps]
            · intro cfg hcfg
              simp [AppConfig.from_env, hpi, hps] at hcfg
              subst hcfg
              simp

/-- Witness for C8 (amended) at an environment with `TIME_OUT = "oops"`
(unparseable, defaulted), `IP` absent (defaulted) and `PORT = "90"`. -/
theorem c8_from_env_failure_modes_witness :
    ({ urls := ["x"]
       interval := 7
       sma_n := 2
       time_out := 1000
       ip := "127.0.0.1"
       port := 90 } : AppConfig).time_out
      = ((some "oops" : Option String).map
          (fun d => (parseU64 d).getD DEFAULT_TIME_OUT)).getD DEFAULT_TIME_OUT ∧
    ({ urls := ["x"]
       interval := 7
       sma_n := 2
       time_out := 1000
       ip := "127.0.0.1"
       port := 90 } : AppConfig).ip = (none : Option String).getD DEFAULT_IP ∧
    ({ urls := ["x"]
       interval := 7
       sma_n := 2
       time_out := 1000
       ip := "127.0.0.1"
       port := 90 } : AppConfig).port
      = ((some "90" : Option String).map
          (fun d => (parseU16 d).getD DEFAULT_PORT)).getD DEFAULT_PORT :=
  (c8_from_env_failure_modes
    { urls := some "x"
      interval := some "7"
      sma_n := some "2"
      time_out := some "oops"
      ip := none
      port := some "90" }).2
    { urls := ["x"]
      interval := 7
      sma_n := 2
      time_out := 1000
      ip := "127.0.0.1"
      port := 90 } (by decide)

/-- Witness for C7 (amended) at the outcome list `[error, success 1]` and a
run of two consecutive failures. -/
theorem c7_error_path_witness :
    initRunTrace (none :: [some 1])
      = PollEvent.fetch :: PollEvent.logError :: initRunTrace [some 1] ∧
    PollEvent.writeEv 3 ∉ initRunTrace (List.replicate 2 none) ∧
    PollEvent.tickWait ∉ initRunTrace (List.replicate 2 none) :=
  ⟨(c7_error_path [some 1] 2).1, (c7_error_path [some 1] 2).2.1 3,
    (c7_error_path [some 1] 2).2.2⟩
